import Mathlib

/-!
# Verification of the sentiment-based stock analysis pipeline

Shallow embedding of the core pipeline of `Stock_Analysis.ipynb`:
inner merge of two date-keyed series (pandas `pd.merge(..., on="Date")`),
the rolling sentiment mean (`.rolling(window=5, min_periods=1).mean()`),
the seeded train/test split (sklearn `train_test_split(test_size=0.2)`),
the regression metrics (RMSE, MAE, R² as computed by sklearn), the
VADER-style sentiment scorer and the simulated tweet-volume generator.

Dates are modelled as naturals, prices and sentiment scores as rationals.
-/

namespace StockAnalysis

/-- Pandas `Series.rolling(window=W, min_periods=1).mean()` applied to the
column `xs`: entry `i` is the mean of the trailing window of the last `W`
values ending at `i` (the window shrinks near the start, and with
`min_periods=1` no entry is ever undefined).  Source line:
`merged_data["Compound"].rolling(window=5, min_periods=1).mean()`. -/
def rollingMean (W : Nat) (xs : List ℚ) : List ℚ :=
  (List.range xs.length).map (fun i =>
    let win := (xs.take (i + 1)).drop (i + 1 - W)
    win.sum / (win.length : ℚ))

/-- Pandas `pd.merge(left, right, on="Date")` with the default inner join:
for each left row, in left order, one output row per right row carrying the
same key, in right order.  Source line:
`merged_data = pd.merge(stock_data, tweets_data, on="Date")`. -/
def merge {α β : Type} (left : List (Nat × α)) (right : List (Nat × β)) :
    List (Nat × α × β) :=
  left.flatMap (fun a =>
    (right.filter (fun b => b.1 == a.1)).map (fun b => (a.1, a.2, b.2)))

/-- Modelled from the spec: the spec's SeriesAligner contract (the notebook
itself calls `pd.merge` directly and has no such error path) fails with
`AlignmentError` when either input is empty or the join is empty, and
otherwise returns the inner join. -/
def alignerSpec {α β : Type} (A : List (Nat × α)) (B : List (Nat × β)) :
    Except String (List (Nat × α × β)) :=
  if A.isEmpty || B.isEmpty || (merge A B).isEmpty then
    Except.error "AlignmentError"
  else
    Except.ok (merge A B)

/-- Test-set size used by sklearn `train_test_split(test_size=0.2)`:
`n_test = ceil(0.2 * n)`, here `⌈n / 5⌉` over the naturals
(sklearn `_validate_shuffle_split` applies `ceil` to a float test size). -/
def nTestSize (n : Nat) : Nat := (n + 4) / 5

/-- Modelled from the spec: the spec's DatasetSplitter test-set size,
`|TestSet| = round(f × N)` with `f = 0.2`, rounding to the nearest integer. -/
def roundTestSize (n : Nat) : Nat := (round ((1 : ℚ) / 5 * n)).toNat

/-- sklearn `train_test_split(rows, test_size=0.2, random_state=42)` at the
level of row indices: the seeded generator yields a permutation `perm` of
`0 .. N-1`; the test set is its first `nTestSize N` entries and the train
set the rest.  Returns `(train, test)`. -/
def train_test_split (N : Nat) (perm : List Nat) : List Nat × List Nat :=
  (perm.drop (nTestSize N), perm.take (nTestSize N))

/-- Mean of a rational list (`np.average`): sum over length. -/
def listMean (xs : List ℚ) : ℚ := xs.sum / (xs.length : ℚ)

/-- sklearn `mean_squared_error(y_true, y_pred)`: mean of squared residuals. -/
def mean_squared_error (yTrue yPred : List ℚ) : ℚ :=
  ((yTrue.zip yPred).map (fun p => (p.1 - p.2) ^ 2)).sum / (yTrue.length : ℚ)

/-- sklearn `mean_absolute_error(y_true, y_pred)`. -/
def mean_absolute_error (yTrue yPred : List ℚ) : ℚ :=
  ((yTrue.zip yPred).map (fun p => |p.1 - p.2|)).sum / (yTrue.length : ℚ)

/-- Residual sum of squares, the numerator of sklearn `r2_score`. -/
def ssRes (yTrue yPred : List ℚ) : ℚ :=
  ((yTrue.zip yPred).map (fun p => (p.1 - p.2) ^ 2)).sum

/-- Total sum of squares about the mean, the denominator of sklearn
`r2_score`. -/
def ssTot (yTrue : List ℚ) : ℚ :=
  (yTrue.map (fun a => (a - listMean yTrue) ^ 2)).sum

/-- sklearn `r2_score(y_true, y_pred)` (default `force_finite=True`): the
input validation rejects an empty input (`check_array` raises `ValueError`,
here `Except.error`); with fewer than two samples the score is not
well-defined and `float("nan")` is returned (here `Except.ok none`; the
notebook suppresses only the accompanying warning, not the NaN).  Otherwise,
when the denominator is nonzero the score is `1 - ssRes / ssTot`, and when
the denominator is zero it is forced finite, to `0.0` for a nonzero
numerator and to `1.0` otherwise. -/
def r2_score (yTrue yPred : List ℚ) : Except String (Option ℚ) :=
  if yTrue.length = 0 then Except.error "ValueError"
  else if yTrue.length < 2 then Except.ok none
  else if ssTot yTrue ≠ 0 then
    Except.ok (some (1 - ssRes yTrue yPred / ssTot yTrue))
  else if ssRes yTrue yPred ≠ 0 then Except.ok (some 0)
  else Except.ok (some 1)

/-- Modelled from the spec: R² must be a NaN-like sentinel (`none`) when the
variance denominator is zero, rather than any numeric value. -/
def r2_spec (yTrue yPred : List ℚ) : Option ℚ :=
  if ssTot yTrue = 0 then none
  else some (1 - ssRes yTrue yPred / ssTot yTrue)

/-- Modelled from the spec: space-splitting of a character list, the
helper of the SentimentScorer tokeniser. -/
def splitWordsAux : List Char → List Char → List (List Char)
  | [], acc => [acc.reverse]
  | c :: cs, acc =>
    if c = ' ' then acc.reverse :: splitWordsAux cs []
    else splitWordsAux cs (c :: acc)

/-- Modelled from the spec: the SentimentScorer tokeniser (VADER is an
external library, not part of the source) splits on spaces and drops empty
tokens, so empty or whitespace-only input yields no tokens. -/
def tokenize (text : String) : List String :=
  ((splitWordsAux text.toList []).map (fun w => String.mk w)).filter
    (fun w => w != "")

/-- Modelled from the spec: valence of one token under a fixed read-only
lexicon; unknown tokens are neutral. -/
def wordValence (lex : List (String × ℚ)) (w : String) : ℚ :=
  ((lex.find? (fun p => p.1 == w)).map Prod.snd).getD 0

/-- Modelled from the spec: normalisation of a summed valence to the closed
interval `[-1, 1]` (a bounded squashing followed by clipping). -/
def normalizeScore (s : ℚ) : ℚ := max (-1) (min 1 (s / (1 + |s|)))

/-- Modelled from the spec: `sia.polarity_scores(text)["compound"]` —
a pure bounded polarity over a fixed lexicon; a text with no tokens scores
exactly 0. -/
def polarity_scores_compound (lex : List (String × ℚ)) (text : String) : ℚ :=
  if tokenize text = [] then 0
  else normalizeScore (((tokenize text).map (wordValence lex)).sum)

/-- Modelled from the spec: one step of the hidden global NumPy generator
state, modelled as a linear congruential step on a 31-bit state. -/
def lcgNext (g : Nat) : Nat := (1103515245 * g + 12345) % 2 ^ 31

/-- Modelled from the spec: `np.random.randint(lo, hi)` draws one integer in
`[lo, hi)` from the global generator state and advances that state. -/
def randint (lo hi g : Nat) : Nat × Nat :=
  let g2 := lcgNext g
  (lo + g2 % (hi - lo), g2)

/-- Modelled from the spec: `np.random.randint(50, 200, n)` — `n` draws from
the global generator, threading the hidden state.  Source line:
`tweets_data["TweetVolume"] = np.random.randint(50, 200, len(tweets_data))`. -/
def tweetVolumes : Nat → Nat → List Nat
  | _, 0 => []
  | g, n + 1 =>
    let r := randint 50 200 g
    r.1 :: tweetVolumes r.2 n

/-- Attach a generated volume column to the scored tweets table
(`tweets_data["TweetVolume"] = ...` column assignment). -/
def attachVolumes (scored : List (Nat × ℚ)) (vols : List Nat) :
    List (Nat × ℚ × Nat) :=
  List.zipWith (fun s v => (s.1, s.2, v)) scored vols

/-- The feature-engineering cell after scoring: merge the price series with
the scored tweets on the date key, then append the rolling sentiment column.
Each row is `(date, price, compound, volume, rollingSentiment)`. -/
def buildFeatures (stock : List (Nat × ℚ)) (tweets : List (Nat × ℚ × Nat)) :
    List (Nat × ℚ × ℚ × Nat × ℚ) :=
  let m := merge stock tweets
  let rs := rollingMean 5 (m.map (fun r => r.2.2.1))
  (List.range m.length).map (fun i =>
    let r := m.getD i (0, 0, 0, 0)
    (r.1, r.2.1, r.2.2.1, r.2.2.2, rs.getD i 0))

/-- One feature-engineering run on fixed inputs, as a function of the hidden
global generator state `g` in effect when the volume column is drawn. -/
def runFeatures (stock scored : List (Nat × ℚ)) (g : Nat) :
    List (Nat × ℚ × ℚ × Nat × ℚ) :=
  buildFeatures stock (attachVolumes scored (tweetVolumes g scored.length))

end StockAnalysis

namespace StockAnalysis

/-- Sum of a rational list as a sum over positions. -/
theorem list_sum_getD (l : List ℚ) :
    l.sum = ∑ j ∈ Finset.range l.length, l.getD j 0 := by
  induction l with
  | nil => simp
  | cons a t ih =>
    rw [List.sum_cons, List.length_cons, Finset.sum_range_succ']
    simp [ih, add_comm]

/-- `getD` through `drop` shifts the index. -/
theorem getD_drop (l : List ℚ) (k j : Nat) :
    (l.drop k).getD j 0 = l.getD (k + j) 0 := by
  simp [List.getD_eq_getElem?_getD, List.getElem?_drop]

/-- `getD` through `take` is unchanged below the cut. -/
theorem getD_take (l : List ℚ) (m j : Nat) (h : j < m) :
    (l.take m).getD j 0 = l.getD j 0 := by
  simp [List.getD_eq_getElem?_getD, List.getElem?_take, h]

/-- The trailing window at position `i` sums to the sum of the source values
over the index interval `[i+1-W, i]`. -/
theorem window_sum (W i : Nat) (xs : List ℚ) (hi : i < xs.length) :
    ((xs.take (i + 1)).drop (i + 1 - W)).sum
      = ∑ j ∈ Finset.Ico (i + 1 - W) (i + 1), xs.getD j 0 := by
  have hlen : ((xs.take (i + 1)).drop (i + 1 - W)).length
      = (i + 1) - (i + 1 - W) := by
    simp [List.length_drop, List.length_take]
    omega
  rw [list_sum_getD, hlen, Finset.sum_Ico_eq_sum_range]
  refine Finset.sum_congr rfl (fun j hj => ?_)
  rw [Finset.mem_range] at hj
  rw [getD_drop, getD_take]
  omega

/-- Length of the trailing window at position `i`. -/
theorem window_length (W i : Nat) (xs : List ℚ) (hi : i < xs.length) :
    ((xs.take (i + 1)).drop (i + 1 - W)).length = (i + 1) - (i + 1 - W) := by
  simp [List.length_drop, List.length_take]
  omega

/-- Entry `i` of the rolling mean, unfolded. -/
theorem rollingMean_getD (W i : Nat) (xs : List ℚ) (hi : i < xs.length) :
    (rollingMean W xs).getD i 0
      = ((xs.take (i + 1)).drop (i + 1 - W)).sum
          / (((xs.take (i + 1)).drop (i + 1 - W)).length : ℚ) := by
  unfold rollingMean
  rw [List.getD_eq_getElem?_getD]
  rw [List.getElem?_map]
  simp [List.getElem?_range, hi]

/-- The rolling mean has one entry per input entry. -/
theorem rollingMean_length (W : Nat) (xs : List ℚ) :
    (rollingMean W xs).length = xs.length := by
  simp [rollingMean]

/-- Entry `i` of the rolling mean as a mean over the trailing index interval. -/
theorem rollingMean_eq_windowMean (W i : Nat) (xs : List ℚ) (hi : i < xs.length) :
    (rollingMean W xs).getD i 0
      = (∑ j ∈ Finset.Ico (i + 1 - W) (i + 1), xs.getD j 0)
          / (((i + 1) - (i + 1 - W) : ℕ) : ℚ) := by
  rw [rollingMean_getD W i xs hi, window_sum W i xs hi, window_length W i xs hi]

/-- C1: the rolling sentiment with positive window `W` at any index `i` is the
arithmetic mean of the compound scores over indices `max(0, i-W+1) .. i`
(here `i + 1 - W` in truncated natural subtraction); in particular the entry
at index 0 is the compound score at index 0, and with `W = 1` the rolling
sentiment column equals the compound-score column row for row. -/
theorem c1_rolling_sentiment (W : Nat) (hW : 0 < W) (xs : List ℚ) :
    (∀ i, i < xs.length →
      (rollingMean W xs).getD i 0
        = (∑ j ∈ Finset.Ico (i + 1 - W) (i + 1), xs.getD j 0)
            / (((i + 1) - (i + 1 - W) : ℕ) : ℚ))
    ∧ (0 < xs.length → (rollingMean W xs).getD 0 0 = xs.getD 0 0)
    ∧ (W = 1 → rollingMean W xs = xs) := by
  refine ⟨fun i hi => rollingMean_eq_windowMean W i xs hi, fun h0 => ?_, fun h1 => ?_⟩
  · rw [rollingMean_eq_windowMean W 0 xs h0]
    have hW0 : 1 - W = 0 := by omega
    rw [hW0]
    simp
  · subst h1
    have hlen := rollingMean_length 1 xs
    apply List.ext_getElem hlen
    intro i h1 h2
    have hgd : (rollingMean 1 xs)[i] = (rollingMean 1 xs).getD i 0 := by
      rw [List.getD_eq_getElem?_getD, List.getElem?_eq_getElem h1]
      rfl
    have hgx : xs[i] = xs.getD i 0 := by
      rw [List.getD_eq_getElem?_getD, List.getElem?_eq_getElem h2]
      rfl
    rw [hgd, hgx, rollingMean_eq_windowMean 1 i xs h2]
    have he : i + 1 - 1 = i := by omega
    rw [he]
    simp

/-- A row belongs to the inner merge exactly when its key/value parts belong
to the respective inputs. -/
theorem mem_merge {α β : Type} (A : List (Nat × α)) (B : List (Nat × β))
    (t : Nat) (p : α) (c : β) :
    (t, p, c) ∈ merge A B ↔ (t, p) ∈ A ∧ (t, c) ∈ B := by
  simp only [merge, List.mem_flatMap, List.mem_map, List.mem_filter, beq_iff_eq]
  constructor
  · rintro ⟨a, ha, b, ⟨hb, hkey⟩, heq⟩
    have h1 : a.1 = t := congrArg Prod.fst heq
    have h2 : a.2 = p := congrArg (fun z => z.2.1) heq
    have h3 : b.2 = c := congrArg (fun z => z.2.2) heq
    constructor
    · have hap : a = (t, p) := Prod.ext h1 h2
      rwa [hap] at ha
    · have hbp : b = (t, c) := Prod.ext (hkey.trans h1) h3
      rwa [hbp] at hb
  · rintro ⟨ha, hb⟩
    exact ⟨(t, p), ha, (t, c), ⟨hb, rfl⟩, rfl⟩

/-- A key appears in the inner merge exactly when it appears in both
inputs. -/
theorem mem_merge_keys {α β : Type} (A : List (Nat × α)) (B : List (Nat × β))
    (t : Nat) :
    t ∈ (merge A B).map Prod.fst
      ↔ t ∈ A.map Prod.fst ∧ t ∈ B.map Prod.fst := by
  simp only [List.mem_map]
  constructor
  · rintro ⟨r, hr, rfl⟩
    have h := (mem_merge A B r.1 r.2.1 r.2.2).1 hr
    exact ⟨⟨(r.1, r.2.1), h.1, rfl⟩, ⟨(r.1, r.2.2), h.2, rfl⟩⟩
  · rintro ⟨⟨a, ha, hat⟩, ⟨b, hb, hbt⟩⟩
    refine ⟨(t, a.2, b.2), ?_, rfl⟩
    refine (mem_merge A B t a.2 b.2).2 ⟨?_, ?_⟩
    · have hae : a = (t, a.2) := Prod.ext hat rfl
      rwa [hae] at ha
    · have hbe : b = (t, b.2) := Prod.ext hbt rfl
      rwa [hbe] at hb

/-- C8: the inner join is commutative in its join-key semantics — aligning
`(A, B)` produces exactly the same set of time points as aligning `(B, A)`. -/
theorem c8_merge_comm_keys {α β : Type} (A : List (Nat × α))
    (B : List (Nat × β)) (t : Nat) :
    t ∈ (merge A B).map Prod.fst ↔ t ∈ (merge B A).map Prod.fst := by
  rw [mem_merge_keys, mem_merge_keys, and_comm]

/-- C6 counterexample: with a duplicated key in the right input, the merge
keeps every matching pair, so the single left row's price value 10 appears
twice in the joined output — the join silently doubles that row rather than
rejecting with an error or aggregating. -/
theorem c6_duplicate_doubles_counterexample :
    (merge [((0 : Nat), (10 : ℚ))] [((0 : Nat), (1 : ℚ)), (0, 2)]).length = 2
    ∧ (merge [((0 : Nat), (10 : ℚ))]
        [((0 : Nat), (1 : ℚ)), (0, 2)]).map (fun r => r.2.1) = [10, 10] := by
  constructor <;> rfl

/-- C6 amended: the merge resolves duplicate keys deterministically by the
cartesian rule — the output holds exactly the matching left/right pairs (no
pair is dropped), and its row count is the sum over left rows of the number
of right rows sharing that key (so duplicates multiply rows; nothing is
rejected or aggregated). -/
theorem c6_duplicate_policy {α β : Type} (A : List (Nat × α))
    (B : List (Nat × β)) :
    (∀ t p c, (t, p, c) ∈ merge A B ↔ (t, p) ∈ A ∧ (t, c) ∈ B)
    ∧ (merge A B).length
        = (A.map (fun a => (B.filter (fun b => b.1 == a.1)).length)).sum := by
  refine ⟨fun t p c => mem_merge A B t p c, ?_⟩
  simp [merge, Function.comp_def]

/-- C4 counterexample: on an empty left input the merge returns the empty
table; only the spec-side aligner produces an `AlignmentError`. -/
theorem c4_no_alignment_error_counterexample :
    merge ([] : List (Nat × ℚ)) [((0 : Nat), (1 : ℚ))] = []
    ∧ alignerSpec ([] : List (Nat × ℚ)) [((0 : Nat), (1 : ℚ))]
        = Except.error "AlignmentError" :=
  ⟨rfl, rfl⟩

/-- C4 amended: when either input is empty, or no key of the left input
occurs in the right input, the merge returns the empty feature table — no
error of any kind is raised at the alignment stage. -/
theorem c4_merge_empty_behavior {α β : Type} (A : List (Nat × α))
    (B : List (Nat × β)) :
    (A = [] → merge A B = [])
    ∧ (B = [] → merge A B = [])
    ∧ ((∀ t ∈ A.map Prod.fst, t ∉ B.map Prod.fst) → merge A B = []) := by
  refine ⟨?_, ?_, ?_⟩
  · rintro rfl
    rfl
  · rintro rfl
    simp [merge]
  · intro h
    rw [List.eq_nil_iff_forall_not_mem]
    rintro ⟨t, p, c⟩ hm
    have hpc := (mem_merge A B t p c).1 hm
    exact h t (List.mem_map.2 ⟨(t, p), hpc.1, rfl⟩)
      (List.mem_map.2 ⟨(t, c), hpc.2, rfl⟩)

/-- Concrete instance of C4 amended: two nonempty inputs with no shared key
merge to the empty table. -/
theorem c4_merge_empty_behavior_witness :
    (∀ t ∈ ([((0 : Nat), (1 : ℚ))]).map Prod.fst,
        t ∉ ([((1 : Nat), (2 : ℚ))]).map Prod.fst)
    ∧ merge [((0 : Nat), (1 : ℚ))] [((1 : Nat), (2 : ℚ))] = [] :=
  ⟨by decide, (c4_merge_empty_behavior _ _).2.2 (by decide)⟩

/-- C2 amended: for a seeded permutation of the `N` row indices, the split
takes the first `⌈N/5⌉` shuffled indices as the test set and the rest as the
train set: the two are disjoint, together they are exactly the `N` rows,
`|Train| + |Test| = N`, `|Test| = ⌈0.2 N⌉` (sklearn applies `ceil`, not
`round`), and the result is a pure function of the seed-derived permutation,
hence identical across repeated runs with the same seed and input. -/
theorem c2_train_test_split (N : Nat) (perm : List Nat)
    (h : perm.Perm (List.range N)) :
    (train_test_split N perm).2.length = nTestSize N
    ∧ (train_test_split N perm).1.length
        + (train_test_split N perm).2.length = N
    ∧ (train_test_split N perm).1.Disjoint (train_test_split N perm).2
    ∧ ((train_test_split N perm).1
        ++ (train_test_split N perm).2).Perm (List.range N)
    ∧ (∀ perm2, perm2 = perm
        → train_test_split N perm2 = train_test_split N perm) := by
  have hlen : perm.length = N := h.length_eq.trans (List.length_range N)
  have ht : nTestSize N ≤ N := by
    unfold nTestSize
    omega
  have hnd : perm.Nodup := h.symm.nodup (List.nodup_range N)
  have he : perm.take (nTestSize N) ++ perm.drop (nTestSize N) = perm :=
    List.take_append_drop _ _
  refine ⟨?_, ?_, ?_, ?_, fun perm2 h2 => by rw [h2]⟩
  · simp [train_test_split, List.length_take, hlen]
    omega
  · simp [train_test_split, List.length_take, List.length_drop, hlen]
    omega
  · have hnd2 : (perm.take (nTestSize N) ++ perm.drop (nTestSize N)).Nodup := by
      rwa [he]
    have hdisj := (List.nodup_append.1 hnd2).2.2
    intro a ha hb
    exact hdisj hb ha
  · have hp : ((train_test_split N perm).1
        ++ (train_test_split N perm).2).Perm
          (perm.take (nTestSize N) ++ perm.drop (nTestSize N)) :=
      List.perm_append_comm
    rw [he] at hp
    exact hp.trans h

/-- Concrete instance of C2 amended at `N = 5` with a shuffled index list. -/
theorem c2_train_test_split_witness :
    ([2, 0, 4, 1, 3] : List Nat).Perm (List.range 5)
    ∧ (train_test_split 5 [2, 0, 4, 1, 3]).2.length = nTestSize 5 :=
  ⟨by decide, (c2_train_test_split 5 [2, 0, 4, 1, 3] (by decide)).1⟩

/-- C2 counterexample: at `N = 7` the test set has `⌈1.4⌉ = 2` rows, not
`round(1.4) = 1` as claimed. -/
theorem c2_round_counterexample :
    ([0, 1, 2, 3, 4, 5, 6] : List Nat).Perm (List.range 7)
    ∧ (train_test_split 7 [0, 1, 2, 3, 4, 5, 6]).2.length ≠ roundTestSize 7 := by
  constructor
  · decide
  · have h1 : roundTestSize 7 = 1 := by
      norm_num [roundTestSize, round_eq]
    have h2 : (train_test_split 7 [0, 1, 2, 3, 4, 5, 6]).2.length = 2 := by
      decide
    rw [h1, h2]
    decide

/-- Sum of a binary function mapped over a zip, as an indexed sum. -/
theorem zip_map_sum (f : ℚ → ℚ → ℚ) :
    ∀ A B : List ℚ, B.length = A.length →
      ((A.zip B).map (fun p => f p.1 p.2)).sum
        = ∑ i ∈ Finset.range A.length, f (A.getD i 0) (B.getD i 0) := by
  intro A
  induction A with
  | nil =>
    intro B hB
    simp
  | cons a A ih =>
    intro B hB
    cases B with
    | nil => simp at hB
    | cons b B =>
      simp only [List.zip_cons_cons, List.map_cons, List.sum_cons,
        List.length_cons]
      rw [Finset.sum_range_succ']
      simp only [List.getD_cons_zero, List.getD_cons_succ]
      rw [ih B (by simpa using hB)]
      exact (add_comm _ _)

/-- Sum of a unary function mapped over a list, as an indexed sum. -/
theorem map_sum_getD (g : ℚ → ℚ) (l : List ℚ) :
    (l.map g).sum = ∑ i ∈ Finset.range l.length, g (l.getD i 0) := by
  induction l with
  | nil => simp
  | cons a t ih =>
    simp only [List.map_cons, List.sum_cons, List.length_cons]
    rw [Finset.sum_range_succ']
    simp only [List.getD_cons_zero, List.getD_cons_succ]
    rw [ih]
    exact (add_comm _ _)

/-- A list of values all equal to `c` sums to `length * c`. -/
theorem sum_eq_length_mul (l : List ℚ) (c : ℚ) (h : ∀ a ∈ l, a = c) :
    l.sum = (l.length : ℚ) * c := by
  induction l with
  | nil => simp
  | cons a t ih =>
    have ha : a = c := h a (List.mem_cons_self a t)
    have ht : ∀ x ∈ t, x = c := fun x hx => h x (List.mem_cons_of_mem a hx)
    simp only [List.sum_cons, List.length_cons, ih ht, ha]
    push_cast
    ring

/-- C3 counterexample: with a single sample the predictions equal the
actuals, yet the evaluator's R² is the NaN sentinel (`none`, sklearn's
fewer-than-two-samples branch), not 1. -/
theorem c3_single_sample_counterexample :
    r2_score [(3 : ℚ)] [(3 : ℚ)] = Except.ok none
    ∧ (Except.ok (none : Option ℚ) : Except String (Option ℚ))
        ≠ Except.ok (some (1 : ℚ)) :=
  ⟨rfl, fun h => by simp at h⟩

/-- C3 amended: for equal-length sequences of at least two samples, the
evaluator's metrics are exactly the claimed formulas — RMSE is the square
root of the mean squared residual, MAE the mean absolute residual, and
(whenever the variance denominator is nonzero) R² is `1 - ssRes / ssTot`;
RMSE is always nonnegative and R² is exactly 1 when the predictions equal
the actuals.  (With fewer than two samples R² is instead NaN, and on empty
input the evaluator raises.) -/
theorem c3_evaluator_metrics (yTrue yPred : List ℚ)
    (hlen : yPred.length = yTrue.length) (hpos : 2 ≤ yTrue.length) :
    Real.sqrt ((mean_squared_error yTrue yPred : ℚ) : ℝ)
      = Real.sqrt (((∑ i ∈ Finset.range yTrue.length,
          (yPred.getD i 0 - yTrue.getD i 0) ^ 2) / (yTrue.length : ℚ) : ℚ))
    ∧ mean_absolute_error yTrue yPred
        = (∑ i ∈ Finset.range yTrue.length,
            |yPred.getD i 0 - yTrue.getD i 0|) / (yTrue.length : ℚ)
    ∧ (ssTot yTrue ≠ 0 → r2_score yTrue yPred
        = Except.ok (some (1 - (∑ i ∈ Finset.range yTrue.length,
            (yTrue.getD i 0 - yPred.getD i 0) ^ 2)
          / (∑ i ∈ Finset.range yTrue.length,
            (yTrue.getD i 0 - listMean yTrue) ^ 2))))
    ∧ 0 ≤ Real.sqrt ((mean_squared_error yTrue yPred : ℚ) : ℝ)
    ∧ (yPred = yTrue → r2_score yTrue yPred = Except.ok (some 1)) := by
  have hres : ssRes yTrue yPred
      = ∑ i ∈ Finset.range yTrue.length,
          (yTrue.getD i 0 - yPred.getD i 0) ^ 2 := by
    rw [ssRes, zip_map_sum (fun a b => (a - b) ^ 2) yTrue yPred hlen]
  have htot : ssTot yTrue
      = ∑ i ∈ Finset.range yTrue.length,
          (yTrue.getD i 0 - listMean yTrue) ^ 2 := by
    rw [ssTot, map_sum_getD (fun a => (a - listMean yTrue) ^ 2) yTrue]
  have hne0 : ¬yTrue.length = 0 := by omega
  have hn2 : ¬yTrue.length < 2 := by omega
  refine ⟨?_, ?_, fun hden => ?_, Real.sqrt_nonneg _, fun hpa => ?_⟩
  · congr 1
    push_cast
    rw [mean_squared_error,
      zip_map_sum (fun a b => (a - b) ^ 2) yTrue yPred hlen]
    push_cast
    congr 1
    refine Finset.sum_congr rfl (fun i _ => ?_)
    ring
  · rw [mean_absolute_error,
      zip_map_sum (fun a b => |a - b|) yTrue yPred hlen]
    congr 1
    refine Finset.sum_congr rfl (fun i _ => ?_)
    rw [abs_sub_comm]
  · rw [r2_score, if_neg hne0, if_neg hn2, if_pos hden, hres, htot]
  · rw [hpa]
    have h0 : ssRes yTrue yTrue = 0 := by
      rw [ssRes, zip_map_sum (fun a b => (a - b) ^ 2) yTrue yTrue rfl]
      simp
    rw [r2_score, if_neg hne0, if_neg hn2, h0]
    split_ifs with h1 h2
    · simp
    · exact absurd rfl h2
    · rfl

/-- Concrete instance of C3 amended: RMSE nonnegativity and
perfect-prediction R² at explicit two-sample inputs. -/
theorem c3_evaluator_metrics_witness :
    (0 : ℝ) ≤ Real.sqrt ((mean_squared_error [(1 : ℚ), 3] [(2 : ℚ), 1] : ℚ) : ℝ)
    ∧ r2_score [(1 : ℚ), 3] [(1 : ℚ), 3] = Except.ok (some 1) :=
  ⟨(c3_evaluator_metrics [(1 : ℚ), 3] [(2 : ℚ), 1] (by decide) (by decide)).2.2.2.1,
   (c3_evaluator_metrics [(1 : ℚ), 3] [(1 : ℚ), 3] (by decide) (by decide)).2.2.2.2 rfl⟩

/-- C5 amended: when every actual value equals a constant the variance
denominator is zero, and the evaluator never performs the division by zero;
but the NaN sentinel appears only on a single sample — on empty input the
evaluator raises `ValueError`, and on two or more constant actuals it
forces a finite score, `0` when the residual numerator is nonzero and `1`
when it is zero (sklearn `force_finite` behaviour). -/
theorem c5_r2_constant_actuals (yTrue yPred : List ℚ) (c : ℚ)
    (hc : ∀ a ∈ yTrue, a = c) :
    ssTot yTrue = 0
    ∧ (yTrue = [] → r2_score yTrue yPred = Except.error "ValueError")
    ∧ (yTrue.length = 1 → r2_score yTrue yPred = Except.ok none)
    ∧ (2 ≤ yTrue.length → ssRes yTrue yPred ≠ 0
        → r2_score yTrue yPred = Except.ok (some 0))
    ∧ (2 ≤ yTrue.length → ssRes yTrue yPred = 0
        → r2_score yTrue yPred = Except.ok (some 1)) := by
  have h0 : ssTot yTrue = 0 := by
    rcases eq_or_ne yTrue [] with h | h
    · rw [h]
      rfl
    · have hlen : (yTrue.length : ℚ) ≠ 0 :=
        Nat.cast_ne_zero.mpr (fun h0 => h (List.length_eq_zero.mp h0))
      have hmean : listMean yTrue = c := by
        rw [listMean, sum_eq_length_mul yTrue c hc, mul_comm, mul_div_assoc,
          div_self hlen, mul_one]
      rw [ssTot]
      apply List.sum_eq_zero
      intro x hx
      rw [List.mem_map] at hx
      obtain ⟨a, ha, rfl⟩ := hx
      rw [hc a ha, hmean]
      ring
  refine ⟨h0, fun hnil => ?_, fun h1 => ?_, fun h2 hne => ?_, fun h2 hz => ?_⟩
  · rw [r2_score, if_pos (by rw [hnil]; rfl)]
  · rw [r2_score, if_neg (by omega), if_pos (by omega)]
  · rw [r2_score, if_neg (by omega), if_neg (by omega),
      if_neg (not_not_intro h0), if_pos hne]
  · rw [r2_score, if_neg (by omega), if_neg (by omega),
      if_neg (not_not_intro h0), if_neg (not_not_intro hz)]

/-- Concrete instance of C5 amended at constant actuals `[3, 3]`. -/
theorem c5_r2_constant_actuals_witness :
    (∀ a ∈ ([(3 : ℚ), 3] : List ℚ), a = 3)
    ∧ r2_score [(3 : ℚ), 3] [(1 : ℚ), 2] = Except.ok (some 0) :=
  ⟨by simp,
   (c5_r2_constant_actuals [(3 : ℚ), 3] [(1 : ℚ), 2] 3 (by simp)).2.2.2.1
     (by norm_num) (by norm_num [ssRes, List.zip])⟩

/-- C5 counterexample: at constant actuals `[3, 3]` with predictions
`[1, 2]` the spec-side R² is the NaN sentinel (`none`), but the code's
`r2_score` returns the ordinary finite number `0` — no sentinel is
produced. -/
theorem c5_sentinel_counterexample :
    r2_spec [(3 : ℚ), 3] [(1 : ℚ), 2] = none
    ∧ r2_score [(3 : ℚ), 3] [(1 : ℚ), 2] = Except.ok (some 0) := by
  have htot : ssTot [(3 : ℚ), 3] = 0 := by
    norm_num [ssTot, listMean]
  have hres : ssRes [(3 : ℚ), 3] [(1 : ℚ), 2] ≠ 0 := by
    norm_num [ssRes, List.zip]
  constructor
  · rw [r2_spec, if_pos htot]
  · rw [r2_score, if_neg (by norm_num), if_neg (by norm_num),
      if_neg (not_not_intro htot), if_pos hres]

/-- C7: over any lexicon the sentiment scorer returns a compound score in
the closed interval `[-1, 1]` for every input string without failing, and on
the empty string it returns exactly 0. -/
theorem c7_sentiment_bounds (lex : List (String × ℚ)) (text : String) :
    (-1 ≤ polarity_scores_compound lex text
      ∧ polarity_scores_compound lex text ≤ 1)
    ∧ polarity_scores_compound lex "" = 0 := by
  constructor
  · rw [polarity_scores_compound]
    split_ifs with h
    · norm_num
    · rw [normalizeScore]
      exact ⟨le_max_left _ _, max_le (by norm_num) (min_le_left _ _)⟩
  · rw [polarity_scores_compound, if_pos (by decide : tokenize "" = [])]

/-- C9: the tweet-volume feature is drawn from the hidden global generator
state, so the feature table is a function of that state as well as of the
inputs — two runs on identical price and sentiment inputs under different
hidden states produce different volume draws and different feature
tables. -/
theorem c9_hidden_rng_state :
    ∃ g1 g2 : Nat,
      tweetVolumes g1 1 ≠ tweetVolumes g2 1
      ∧ runFeatures [((0 : Nat), (100 : ℚ))] [((0 : Nat), (1 : ℚ) / 2)] g1
          ≠ runFeatures [((0 : Nat), (100 : ℚ))] [((0 : Nat), (1 : ℚ) / 2)] g2 :=
  ⟨0, 1, by decide, fun he =>
    absurd (congrArg (List.map (fun r => r.2.2.2.1)) he) (by decide)⟩

/-- Every volume drawn by the generator lies in `[50, 199]`. -/
theorem tweetVolumes_bounds :
    ∀ n g : Nat, ∀ v ∈ tweetVolumes g n, 50 ≤ v ∧ v ≤ 199 := by
  intro n
  induction n with
  | zero =>
    intro g v hv
    simp [tweetVolumes] at hv
  | succ m ih =>
    intro g v hv
    simp only [tweetVolumes, randint] at hv
    rcases List.mem_cons.mp hv with h | h
    · have h150 : lcgNext g % (200 - 50) < 200 - 50 :=
        Nat.mod_lt _ (by norm_num)
      omega
    · exact ih _ v h

/-- The volume of a row of the volume-attached tweets table is one of the
attached volumes. -/
theorem attachVolumes_volume_mem :
    ∀ (scored : List (Nat × ℚ)) (vols : List Nat) (tw : Nat × ℚ × Nat),
      tw ∈ attachVolumes scored vols → tw.2.2 ∈ vols := by
  intro scored
  induction scored with
  | nil =>
    intro vols tw h
    simp [attachVolumes] at h
  | cons s ss ih =>
    intro vols tw h
    cases vols with
    | nil => simp [attachVolumes] at h
    | cons v vs =>
      simp only [attachVolumes, List.zipWith_cons_cons] at h
      rcases List.mem_cons.mp h with h | h
      · rw [h]
        exact List.mem_cons_self _ _
      · exact List.mem_cons_of_mem _
          (ih vs tw (by simpa [attachVolumes] using h))

/-- The volume of every built feature row is the volume of some tweets
row: the later stages never rewrite the volume column. -/
theorem buildFeatures_volume_mem (stock : List (Nat × ℚ))
    (tweets : List (Nat × ℚ × Nat)) (row : Nat × ℚ × ℚ × Nat × ℚ)
    (h : row ∈ buildFeatures stock tweets) :
    ∃ tw ∈ tweets, row.2.2.2.1 = tw.2.2 := by
  simp only [buildFeatures, List.mem_map, List.mem_range] at h
  obtain ⟨i, hi, heq⟩ := h
  have hmem : (merge stock tweets).getD i (0, 0, 0, 0) ∈ merge stock tweets := by
    rw [List.getD_eq_getElem _ _ hi]
    exact List.getElem_mem hi
  have h2 := (mem_merge stock tweets
      ((merge stock tweets).getD i (0, 0, 0, 0)).1
      ((merge stock tweets).getD i (0, 0, 0, 0)).2.1
      ((merge stock tweets).getD i (0, 0, 0, 0)).2.2).1 hmem
  refine ⟨(((merge stock tweets).getD i (0, 0, 0, 0)).1,
      ((merge stock tweets).getD i (0, 0, 0, 0)).2.2), h2.2, ?_⟩
  rw [← heq]

/-- C10: every generated tweet volume is an integer in `[50, 199]`, and the
bound holds for the volume entry of every row of the built feature table,
since no later pipeline stage rewrites the volume column. -/
theorem c10_volume_bounds (g : Nat) (stock scored : List (Nat × ℚ)) :
    (∀ n, ∀ v ∈ tweetVolumes g n, 50 ≤ v ∧ v ≤ 199)
    ∧ (∀ row ∈ buildFeatures stock
          (attachVolumes scored (tweetVolumes g scored.length)),
        50 ≤ row.2.2.2.1 ∧ row.2.2.2.1 ≤ 199) := by
  refine ⟨fun n => tweetVolumes_bounds n g, fun row hrow => ?_⟩
  obtain ⟨tw, htw, hv⟩ := buildFeatures_volume_mem _ _ row hrow
  rw [hv]
  exact tweetVolumes_bounds _ _ _ (attachVolumes_volume_mem _ _ tw htw)

/-- Concrete instance of C10: the first draw at hidden state 0 is 95 and
lies in the bounds. -/
theorem c10_volume_bounds_witness :
    95 ∈ tweetVolumes 0 1 ∧ 50 ≤ 95 ∧ 95 ≤ 199 :=
  ⟨by decide, (c10_volume_bounds 0 [] []).1 1 95 (by decide)⟩

/-- Concrete instance of C1 at `W = 2`, `xs = [1, 2, 4]`. -/
theorem c1_rolling_sentiment_witness :
    (0 < 2)
    ∧ (rollingMean 2 [(1 : ℚ), 2, 4]).getD 2 0
        = (∑ j ∈ Finset.Ico (3 - 2) 3, ([(1 : ℚ), 2, 4]).getD j 0)
            / ((3 - (3 - 2) : ℕ) : ℚ) :=
  ⟨by decide, (c1_rolling_sentiment 2 (by decide) [(1 : ℚ), 2, 4]).1 2 (by decide)⟩

end StockAnalysis
